import Mathlib

/-!
Verification of the `alacritty/vte` terminal-protocol parser.

The development shallowly embeds the parser of `src/src/lib.rs` (the VT state
machine `Parser` with its `Perform` callbacks), the UTF-8 decoder it delegates
to, and the synchronized-update shim of `src/src/ansi.rs`.

Bytes are modelled as `Nat`, signed 64-bit integers as `Int` with explicit
saturation at the `i64` bounds, fixed-capacity buffers as `List`s guarded by
the same capacity checks the source performs, and `Perform` callbacks as an
emitted event list.  The event list additionally carries ghost markers
(`markClear`, `markOverflow`, `markOsc`) recording when the parser's `clear`
runs, when a buffer overflow sets `ignoring`, and which slice indices an OSC
dispatch used; `observables` strips them, leaving exactly the performer calls.
-/

set_option maxHeartbeats 1000000
set_option maxRecDepth 100000

namespace Vte

/-- Capacity of the intermediates buffer (`MAX_INTERMEDIATES` in lib.rs). -/
def MAX_INTERMEDIATES : Nat := 2

/-- Capacity of the parameter buffers (`MAX_PARAMS` in lib.rs). -/
def MAX_PARAMS : Nat := 16

/-- Largest `i64` value, `i64::MAX`. -/
def i64Max : Int := 9223372036854775807

/-- Smallest `i64` value, `i64::MIN`. -/
def i64Min : Int := -9223372036854775808

/-- Rust `i64::saturating_add`: the true sum clamped into the `i64` range. -/
def satAdd (a b : Int) : Int := max i64Min (min i64Max (a + b))

/-- Rust `i64::saturating_mul`: the true product clamped into the `i64` range. -/
def satMul (a b : Int) : Int := max i64Min (min i64Max (a * b))

/-- States of the UTF-8 decoder (`utf8parse::types::State`). -/
inductive Utf8State
  | ground
  | tail1
  | tail2
  | tail3
  | u3_2_e0
  | u3_2_ed
  | utf8_4_3_f0
  | utf8_4_3_f4
  deriving DecidableEq, Repr, Fintype

/-- Actions of the UTF-8 decoder.  Modelled from the spec: the decoder version
linked by `src/src/lib.rs` (whose `advance` returns a consumed flag and which
distinguishes an invalid lead byte from an invalid continuation byte) is not
under `src/`; only the older draft `src/utf8parse/src/lib.rs` is.  The action
set is the one of spec section 4.2. -/
inductive Utf8Action
  | invalidByte
  | invalidContinuation
  | emitByte
  | setByte1
  | setByte2
  | setByte2Top
  | setByte3
  | setByte3Top
  | setByte4
  deriving DecidableEq, Repr, Fintype

open Utf8State Utf8Action in
/-- Transition function of the UTF-8 decoder.  The byte ranges are those of
`Parser::next` in `src/utf8parse/src/lib.rs`; out-of-range bytes in a
non-Ground state yield `invalidContinuation` (Modelled from the spec: the
draft under `src/` collapses both invalid cases into one action). -/
def utf8Next (s : Utf8State) (b : Nat) : Utf8State × Utf8Action :=
  match s with
  | ground =>
      if b ≤ 0x7f then (ground, emitByte)
      else if 0xc2 ≤ b ∧ b ≤ 0xdf then (tail1, setByte2Top)
      else if b = 0xe0 then (u3_2_e0, setByte3Top)
      else if 0xe1 ≤ b ∧ b ≤ 0xec then (tail2, setByte3Top)
      else if b = 0xed then (u3_2_ed, setByte3Top)
      else if 0xee ≤ b ∧ b ≤ 0xef then (tail2, setByte3Top)
      else if b = 0xf0 then (utf8_4_3_f0, setByte4)
      else if 0xf1 ≤ b ∧ b ≤ 0xf3 then (tail3, setByte4)
      else if b = 0xf4 then (utf8_4_3_f4, setByte4)
      else (ground, invalidByte)
  | u3_2_e0 =>
      if 0xa0 ≤ b ∧ b ≤ 0xbf then (tail1, setByte2) else (ground, invalidContinuation)
  | u3_2_ed =>
      if 0x80 ≤ b ∧ b ≤ 0x9f then (tail1, setByte2) else (ground, invalidContinuation)
  | utf8_4_3_f0 =>
      if 0x90 ≤ b ∧ b ≤ 0xbf then (tail2, setByte3) else (ground, invalidContinuation)
  | utf8_4_3_f4 =>
      if 0x80 ≤ b ∧ b ≤ 0x8f then (tail2, setByte3) else (ground, invalidContinuation)
  | tail3 =>
      if 0x80 ≤ b ∧ b ≤ 0xbf then (tail2, setByte3) else (ground, invalidContinuation)
  | tail2 =>
      if 0x80 ≤ b ∧ b ≤ 0xbf then (tail1, setByte2) else (ground, invalidContinuation)
  | tail1 =>
      if 0x80 ≤ b ∧ b ≤ 0xbf then (ground, setByte1) else (ground, invalidContinuation)

/-- The UTF-8 decoder state: code-point accumulator and machine state
(`utf8parse::Parser`). -/
structure U8 where
  point : Nat
  state : Utf8State
  deriving DecidableEq, Repr

/-- The replacement character U+FFFD. -/
def REPLACEMENT : Nat := 0xfffd

/-- One step of the UTF-8 decoder: `utf8parse::Parser::advance`.  Returns the
new decoder, the code points handed to the receiver (at most one), and the
consumed flag.  Modelled from the spec: the consumed flag (false exactly on
`invalidContinuation`, telling the caller to re-feed the byte) is described in
spec sections 4.1-4.2 and is required by `Parser::process_utf8` in lib.rs; the
point assembly masks/shifts are those of `perform_action` in
`src/utf8parse/src/lib.rs`. -/
def utf8Step (u : U8) (b : Nat) : U8 × List Nat × Bool :=
  match (utf8Next u.state b).2 with
  | .invalidByte => (⟨0, (utf8Next u.state b).1⟩, [REPLACEMENT], true)
  | .invalidContinuation => (⟨0, (utf8Next u.state b).1⟩, [REPLACEMENT], false)
  | .emitByte => (⟨u.point, (utf8Next u.state b).1⟩, [b], true)
  | .setByte1 => (⟨0, (utf8Next u.state b).1⟩, [u.point ||| (b &&& 0x3f)], true)
  | .setByte2 => (⟨u.point ||| ((b &&& 0x3f) <<< 6), (utf8Next u.state b).1⟩, [], true)
  | .setByte2Top => (⟨u.point ||| ((b &&& 0x1f) <<< 6), (utf8Next u.state b).1⟩, [], true)
  | .setByte3 => (⟨u.point ||| ((b &&& 0x3f) <<< 12), (utf8Next u.state b).1⟩, [], true)
  | .setByte3Top => (⟨u.point ||| ((b &&& 0x0f) <<< 12), (utf8Next u.state b).1⟩, [], true)
  | .setByte4 => (⟨u.point ||| ((b &&& 0x07) <<< 18), (utf8Next u.state b).1⟩, [], true)

/-- End-of-stream for the UTF-8 decoder.  Modelled from the spec: "If U is not
in Ground when the caller signals end, emit one U+FFFD and return to Ground"
(spec section 4.2); the decoder's `end` is called by
`Parser::process_end_utf8` in lib.rs but its body is not under `src/`. -/
def utf8End (u : U8) : U8 × List Nat :=
  if u.state = .ground then (u, []) else (⟨0, .ground⟩, [REPLACEMENT])

/-- States of the VT machine.  Modelled from the spec: `src/src/lib.rs` uses a
`State` with `SosPmApcString` and a `Utf8` pseudo-state (spec sections 4.1 and
9); the draft `src/src/definitions.rs` under `src/` is a different historical
revision, so the superset enumeration of the spec is adopted.  `anywhere` is
the overlay row; as in the generated table, a packed destination of `anywhere`
means "stay in the current state". -/
inductive VtState
  | anywhere
  | csiEntry
  | csiIgnore
  | csiIntermediate
  | csiParam
  | dcsEntry
  | dcsIgnore
  | dcsIntermediate
  | dcsParam
  | dcsPassthrough
  | escape
  | escapeIntermediate
  | ground
  | oscString
  | sosPmApcString
  | utf8
  deriving DecidableEq, Repr, Fintype

/-- Actions of the VT machine, the superset used by `perform_action` in
`src/src/lib.rs` (including `beginUtf8` and `checkDcsSosPmApc`). -/
inductive VtAction
  | none
  | clear
  | collect
  | csiDispatch
  | escDispatch
  | execute
  | hook
  | ignore
  | oscEnd
  | oscPut
  | oscStart
  | param
  | print
  | put
  | unhook
  | beginUtf8
  | checkDcsSosPmApc
  deriving DecidableEq, Repr

/-- Entry actions per state (spec section 4.1; `State::entry_action` used by
`perform_state_change` in lib.rs is not under `src/`, Modelled from the
spec). -/
def entryAction : VtState → VtAction
  | .csiEntry => .clear
  | .dcsEntry => .clear
  | .escape => .clear
  | .dcsPassthrough => .hook
  | .oscString => .oscStart
  | _ => .none

/-- Exit actions per state (spec section 4.1; `State::exit_action` is not
under `src/`, Modelled from the spec). -/
def exitAction : VtState → VtAction
  | .dcsPassthrough => .unhook
  | .oscString => .oscEnd
  | _ => .none

/-- Events: the calls `Parser` makes into its `Perform`, plus ghost markers.
`markClear` records a run of `Parser::clear`, `markOverflow` records an
intermediate/parameter buffer overflow (the moments the source sets
`ignoring`), and `markOsc` records the slice index pairs and raw-buffer
length an OSC dispatch was built from.  The markers instrument the embedding
for stating invariants; `observables` removes them. -/
inductive Event
  | print (c : Nat)
  | execute (b : Nat)
  | hook (params : List Int) (intermediates : List Nat) (ignore : Bool) (c : Nat)
  | put (b : Nat)
  | unhook
  | oscDispatch (params : List (List Nat)) (bell : Bool)
  | csiDispatch (params : List Int) (intermediates : List Nat) (ignore : Bool) (c : Nat)
  | escDispatch (intermediates : List Nat) (ignore : Bool) (b : Nat)
  | markClear
  | markOverflow
  | markOsc (pairs : List (Nat × Nat)) (rawLen : Nat)
  deriving DecidableEq, Repr

/-- Whether an event is an actual performer call (not a ghost marker). -/
def Event.isObservable : Event → Bool
  | .markClear => false
  | .markOverflow => false
  | .markOsc _ _ => false
  | _ => true

/-- The performer calls of a trace, ghost markers removed. -/
def observables (es : List Event) : List Event := es.filter Event.isObservable

/-- The parser state: the fields of `struct Parser` in `src/src/lib.rs`.  The
fixed arrays with their fill counters (`intermediates`/`intermediate_idx`,
`params`/`num_params`, `osc_params`/`osc_num_params`) are embedded as lists
whose length is guarded by the same capacity comparisons the source makes;
`osc_raw` is the growable `Vec<u8>` of the default (alloc) build. -/
structure PState where
  state : VtState
  intermediates : List Nat
  params : List Int
  param : Int
  oscRaw : List Nat
  oscParams : List (Nat × Nat)
  ignoring : Bool
  utf8Parser : U8
  noDcsSosPmApc : Bool
  deriving DecidableEq, Repr

/-- `Parser::new` / `Parser::default`. -/
def initParser : PState :=
  { state := .ground, intermediates := [], params := [], param := 0, oscRaw := [],
    oscParams := [], ignoring := false, utf8Parser := ⟨0, .ground⟩, noDcsSosPmApc := false }

/-- `Parser::set_dcs_sos_pm_apc`. -/
def setDcsSosPmApc (p : PState) (dcsSosPmApc : Bool) : PState :=
  { p with noDcsSosPmApc := !dcsSosPmApc }

open VtState VtAction in
/-- The `Anywhere` overlay row of `STATE_CHANGES`.  Modelled from the spec:
the generated table module `src/table.rs` referenced by lib.rs is not under
`src/`; the rows follow the vt100.net state diagram with the spec's
modifications (sections 4.1, 6 and 9).  A result of `(anywhere, none)` plays
the role of the packed byte `0`, "no override". -/
def anywhereRow (b : Nat) : VtState × VtAction :=
  if b = 0x18 then (ground, execute)
  else if b = 0x1a then (ground, execute)
  else if b = 0x1b then (escape, VtAction.none)
  else (anywhere, VtAction.none)

open VtState VtAction in
/-- The `Ground` row of `STATE_CHANGES`.  This and the following rows are
Modelled from the spec, like `anywhereRow`; unlisted bytes keep the
packed-zero default `(anywhere, none)`: no state change, no action.  Every
byte `0x80..=0xFF` diverts into the UTF-8 decoder (spec section 6): valid
lead bytes `0xC2..=0xF4` start a sequence, while `0x80..=0xC1` and
`0xF5..=0xFF` are rejected there as `InvalidByte`, producing one U+FFFD
each (spec section 4.2, "an out-of-range byte ... through U in Ground";
pinned by the `parse_invalid_utf8_byte` and `parse_misc_invalid_utf8`
tests of lib.rs). -/
def groundRow (b : Nat) : VtState × VtAction :=
  if b ≤ 0x17 then (anywhere, execute)
  else if b = 0x19 then (anywhere, execute)
  else if 0x1c ≤ b ∧ b ≤ 0x1f then (anywhere, execute)
  else if 0x20 ≤ b ∧ b ≤ 0x7f then (anywhere, print)
  else if 0x80 ≤ b ∧ b ≤ 0xff then (utf8, beginUtf8)
  else (anywhere, VtAction.none)

open VtState VtAction in
/-- The `Escape` row of `STATE_CHANGES`. -/
def escapeRow (b : Nat) : VtState × VtAction :=
  if b ≤ 0x17 then (anywhere, execute)
  else if b = 0x19 then (anywhere, execute)
  else if 0x1c ≤ b ∧ b ≤ 0x1f then (anywhere, execute)
  else if b = 0x7f then (anywhere, ignore)
  else if 0x20 ≤ b ∧ b ≤ 0x2f then (escapeIntermediate, collect)
  else if b = 0x50 then (dcsEntry, checkDcsSosPmApc)
  else if b = 0x58 ∨ b = 0x5e ∨ b = 0x5f then (sosPmApcString, checkDcsSosPmApc)
  else if b = 0x5b then (csiEntry, VtAction.none)
  else if b = 0x5d then (oscString, VtAction.none)
  else if 0x30 ≤ b ∧ b ≤ 0x4f then (ground, escDispatch)
  else if 0x51 ≤ b ∧ b ≤ 0x57 then (ground, escDispatch)
  else if b = 0x59 ∨ b = 0x5a ∨ b = 0x5c then (ground, escDispatch)
  else if 0x60 ≤ b ∧ b ≤ 0x7e then (ground, escDispatch)
  else (anywhere, VtAction.none)

open VtState VtAction in
/-- The `EscapeIntermediate` row of `STATE_CHANGES`. -/
def escapeIntermediateRow (b : Nat) : VtState × VtAction :=
  if b ≤ 0x17 then (anywhere, execute)
  else if b = 0x19 then (anywhere, execute)
  else if 0x1c ≤ b ∧ b ≤ 0x1f then (anywhere, execute)
  else if 0x20 ≤ b ∧ b ≤ 0x2f then (anywhere, collect)
  else if b = 0x7f then (anywhere, ignore)
  else if 0x30 ≤ b ∧ b ≤ 0x7e then (ground, escDispatch)
  else (anywhere, VtAction.none)

open VtState VtAction in
/-- The `CsiEntry` row of `STATE_CHANGES`. -/
def csiEntryRow (b : Nat) : VtState × VtAction :=
  if b ≤ 0x17 then (anywhere, execute)
  else if b = 0x19 then (anywhere, execute)
  else if 0x1c ≤ b ∧ b ≤ 0x1f then (anywhere, execute)
  else if b = 0x7f then (anywhere, ignore)
  else if 0x20 ≤ b ∧ b ≤ 0x2f then (csiIntermediate, collect)
  else if b = 0x3a then (csiIgnore, VtAction.none)
  else if 0x30 ≤ b ∧ b ≤ 0x39 then (csiParam, param)
  else if b = 0x3b then (csiParam, param)
  else if 0x3c ≤ b ∧ b ≤ 0x3f then (csiParam, collect)
  else if 0x40 ≤ b ∧ b ≤ 0x7e then (ground, csiDispatch)
  else (anywhere, VtAction.none)

open VtState VtAction in
/-- The `CsiIgnore` row of `STATE_CHANGES`. -/
def csiIgnoreRow (b : Nat) : VtState × VtAction :=
  if b ≤ 0x17 then (anywhere, execute)
  else if b = 0x19 then (anywhere, execute)
  else if 0x1c ≤ b ∧ b ≤ 0x1f then (anywhere, execute)
  else if 0x20 ≤ b ∧ b ≤ 0x3f then (anywhere, ignore)
  else if b = 0x7f then (anywhere, ignore)
  else if 0x40 ≤ b ∧ b ≤ 0x7e then (ground, VtAction.none)
  else (anywhere, VtAction.none)

open VtState VtAction in
/-- The `CsiParam` row of `STATE_CHANGES`. -/
def csiParamRow (b : Nat) : VtState × VtAction :=
  if b ≤ 0x17 then (anywhere, execute)
  else if b = 0x19 then (anywhere, execute)
  else if 0x1c ≤ b ∧ b ≤ 0x1f then (anywhere, execute)
  else if 0x30 ≤ b ∧ b ≤ 0x39 then (anywhere, param)
  else if b = 0x3b then (anywhere, param)
  else if b = 0x7f then (anywhere, ignore)
  else if b = 0x3a then (csiIgnore, VtAction.none)
  else if 0x3c ≤ b ∧ b ≤ 0x3f then (csiIgnore, VtAction.none)
  else if 0x20 ≤ b ∧ b ≤ 0x2f then (csiIntermediate, collect)
  else if 0x40 ≤ b ∧ b ≤ 0x7e then (ground, csiDispatch)
  else (anywhere, VtAction.none)

open VtState VtAction in
/-- The `CsiIntermediate` row of `STATE_CHANGES`. -/
def csiIntermediateRow (b : Nat) : VtState × VtAction :=
  if b ≤ 0x17 then (anywhere, execute)
  else if b = 0x19 then (anywhere, execute)
  else if 0x1c ≤ b ∧ b ≤ 0x1f then (anywhere, execute)
  else if 0x20 ≤ b ∧ b ≤ 0x2f then (anywhere, collect)
  else if b = 0x7f then (anywhere, ignore)
  else if 0x30 ≤ b ∧ b ≤ 0x3f then (csiIgnore, VtAction.none)
  else if 0x40 ≤ b ∧ b ≤ 0x7e then (ground, csiDispatch)
  else (anywhere, VtAction.none)

open VtState VtAction in
/-- The `DcsEntry` row of `STATE_CHANGES`. -/
def dcsEntryRow (b : Nat) : VtState × VtAction :=
  if b ≤ 0x17 then (anywhere, ignore)
  else if b = 0x19 then (anywhere, ignore)
  else if 0x1c ≤ b ∧ b ≤ 0x1f then (anywhere, ignore)
  else if b = 0x7f then (anywhere, ignore)
  else if b = 0x3a then (dcsIgnore, VtAction.none)
  else if 0x20 ≤ b ∧ b ≤ 0x2f then (dcsIntermediate, collect)
  else if 0x30 ≤ b ∧ b ≤ 0x39 then (dcsParam, param)
  else if b = 0x3b then (dcsParam, param)
  else if 0x3c ≤ b ∧ b ≤ 0x3f then (dcsParam, collect)
  else if 0x40 ≤ b ∧ b ≤ 0x7e then (dcsPassthrough, VtAction.none)
  else (anywhere, VtAction.none)

open VtState VtAction in
/-- The `DcsIntermediate` row of `STATE_CHANGES`. -/
def dcsIntermediateRow (b : Nat) : VtState × VtAction :=
  if b ≤ 0x17 then (anywhere, ignore)
  else if b = 0x19 then (anywhere, ignore)
  else if 0x1c ≤ b ∧ b ≤ 0x1f then (anywhere, ignore)
  else if 0x20 ≤ b ∧ b ≤ 0x2f then (anywhere, collect)
  else if b = 0x7f then (anywhere, ignore)
  else if 0x30 ≤ b ∧ b ≤ 0x3f then (dcsIgnore, VtAction.none)
  else if 0x40 ≤ b ∧ b ≤ 0x7e then (dcsPassthrough, VtAction.none)
  else (anywhere, VtAction.none)

open VtState VtAction in
/-- The `DcsIgnore` row of `STATE_CHANGES`. -/
def dcsIgnoreRow (b : Nat) : VtState × VtAction :=
  if b ≤ 0x17 then (anywhere, ignore)
  else if b = 0x19 then (anywhere, ignore)
  else if 0x1c ≤ b ∧ b ≤ 0x1f then (anywhere, ignore)
  else if 0x20 ≤ b ∧ b ≤ 0x7f then (anywhere, ignore)
  else if b = 0x9c then (ground, VtAction.none)
  else (anywhere, VtAction.none)

open VtState VtAction in
/-- The `DcsParam` row of `STATE_CHANGES`. -/
def dcsParamRow (b : Nat) : VtState × VtAction :=
  if b ≤ 0x17 then (anywhere, ignore)
  else if b = 0x19 then (anywhere, ignore)
  else if 0x1c ≤ b ∧ b ≤ 0x1f then (anywhere, ignore)
  else if 0x30 ≤ b ∧ b ≤ 0x39 then (anywhere, param)
  else if b = 0x3b then (anywhere, param)
  else if b = 0x7f then (anywhere, ignore)
  else if b = 0x3a then (dcsIgnore, VtAction.none)
  else if 0x3c ≤ b ∧ b ≤ 0x3f then (dcsIgnore, VtAction.none)
  else if 0x20 ≤ b ∧ b ≤ 0x2f then (dcsIntermediate, collect)
  else if 0x40 ≤ b ∧ b ≤ 0x7e then (dcsPassthrough, VtAction.none)
  else (anywhere, VtAction.none)

open VtState VtAction in
/-- The `DcsPassthrough` row of `STATE_CHANGES`. -/
def dcsPassthroughRow (b : Nat) : VtState × VtAction :=
  if b ≤ 0x17 then (anywhere, put)
  else if b = 0x19 then (anywhere, put)
  else if 0x1c ≤ b ∧ b ≤ 0x1f then (anywhere, put)
  else if 0x20 ≤ b ∧ b ≤ 0x7e then (anywhere, put)
  else if b = 0x7f then (anywhere, ignore)
  else if b = 0x9c then (ground, VtAction.none)
  else (anywhere, VtAction.none)

open VtState VtAction in
/-- The `SosPmApcString` row of `STATE_CHANGES`. -/
def sosPmApcStringRow (b : Nat) : VtState × VtAction :=
  if b ≤ 0x17 then (anywhere, ignore)
  else if b = 0x19 then (anywhere, ignore)
  else if 0x1c ≤ b ∧ b ≤ 0x1f then (anywhere, ignore)
  else if 0x20 ≤ b ∧ b ≤ 0x7f then (anywhere, ignore)
  else if b = 0x9c then (ground, VtAction.none)
  else (anywhere, VtAction.none)

open VtState VtAction in
/-- The `OscString` row of `STATE_CHANGES`. -/
def oscStringRow (b : Nat) : VtState × VtAction :=
  if b ≤ 0x06 then (anywhere, ignore)
  else if b = 0x07 then (ground, VtAction.none)
  else if 0x08 ≤ b ∧ b ≤ 0x17 then (anywhere, ignore)
  else if b = 0x19 then (anywhere, ignore)
  else if 0x1c ≤ b ∧ b ≤ 0x1f then (anywhere, ignore)
  else if 0x20 ≤ b then (anywhere, oscPut)
  else (anywhere, VtAction.none)

/-- The per-state rows of `STATE_CHANGES`, dispatching to the row
functions.  The `Anywhere` and `Utf8` rows hold only packed zeros. -/
def stateRow (s : VtState) (b : Nat) : VtState × VtAction :=
  match s with
  | .ground => groundRow b
  | .escape => escapeRow b
  | .escapeIntermediate => escapeIntermediateRow b
  | .csiEntry => csiEntryRow b
  | .csiIgnore => csiIgnoreRow b
  | .csiParam => csiParamRow b
  | .csiIntermediate => csiIntermediateRow b
  | .dcsEntry => dcsEntryRow b
  | .dcsIntermediate => dcsIntermediateRow b
  | .dcsIgnore => dcsIgnoreRow b
  | .dcsParam => dcsParamRow b
  | .dcsPassthrough => dcsPassthroughRow b
  | .sosPmApcString => sosPmApcStringRow b
  | .oscString => oscStringRow b
  | .anywhere => (VtState.anywhere, VtAction.none)
  | .utf8 => (VtState.anywhere, VtAction.none)

/-- The two-stage lookup of `Parser::advance`: the `Anywhere` overlay first,
then (if it holds the packed zero `(anywhere, none)`) the current state's
row. -/
def lookupChange (s : VtState) (b : Nat) : VtState × VtAction :=
  if anywhereRow b = (VtState.anywhere, VtAction.none) then stateRow s b else anywhereRow b

/-- `Parser::clear`: reset intermediates, parameters, the accumulator and
`ignoring`.  Emits the ghost `markClear`. -/
def clearParser (p : PState) : PState :=
  { p with intermediates := [], ignoring := false, params := [], param := 0 }

/-- The `Action::OscEnd` buffer commit in `perform_action`: finish the last
parameter slice unless the slice table is full. -/
def oscEndCommit (p : PState) : PState :=
  let idx := p.oscRaw.length
  if p.oscParams.length = MAX_PARAMS then p
  else if p.oscParams.length = 0 then { p with oscParams := p.oscParams ++ [(0, idx)] }
  else { p with oscParams := p.oscParams ++ [((p.oscParams.getLastD (0, 0)).2, idx)] }

/-- Extract the slice `raw[b..e]` that `Parser::osc_dispatch` builds from an
index pair. -/
def sliceOf (raw : List Nat) (pr : Nat × Nat) : List Nat :=
  (raw.drop pr.1).take (pr.2 - pr.1)

/-- `Parser::process_utf8`: drive the byte through the UTF-8 decoder via
`VtUtf8Receiver` (each receiver call prints and resets the VT state to
Ground); when the decoder did not consume the byte, re-feed it through the
outer machine `refeed`. -/
def processUtf8 (refeed : PState → Nat → PState × List Event) (p : PState) (b : Nat) :
    PState × List Event :=
  let r := utf8Step p.utf8Parser b
  let p' : PState :=
    { p with utf8Parser := r.1, state := if r.2.1.isEmpty then p.state else .ground }
  if r.2.2 then (p', r.2.1.map Event.print)
  else (((refeed p' b).1), r.2.1.map Event.print ++ (refeed p' b).2)

open VtAction in
/-- `Parser::perform_action`.  `refeed` stands for the recursive call
`self.advance` reachable through `Action::BeginUtf8` and `process_utf8`. -/
def performAction (refeed : PState → Nat → PState × List Event) (p : PState)
    (a : VtAction) (b : Nat) : PState × List Event :=
  match a with
  | print => (p, [.print b])
  | execute => (p, [.execute b])
  | hook =>
      if p.params.length = MAX_PARAMS then
        let p' := { p with ignoring := true }
        (p', [.markOverflow, .hook p'.params p'.intermediates p'.ignoring b])
      else
        let p' := { p with params := p.params ++ [p.param] }
        (p', [.hook p'.params p'.intermediates p'.ignoring b])
  | put => (p, [.put b])
  | oscStart => ({ p with oscRaw := [], oscParams := [] }, [])
  | oscPut =>
      let idx := p.oscRaw.length
      if b = 0x3b then
        if p.oscParams.length = MAX_PARAMS then (p, [])
        else if p.oscParams.length = 0 then
          ({ p with oscParams := p.oscParams ++ [(0, idx)] }, [])
        else
          ({ p with oscParams := p.oscParams ++ [((p.oscParams.getLastD (0, 0)).2, idx)] }, [])
      else ({ p with oscRaw := p.oscRaw ++ [b] }, [])
  | oscEnd =>
      let p' := oscEndCommit p
      (p', [.markOsc p'.oscParams p'.oscRaw.length,
            .oscDispatch (p'.oscParams.map (sliceOf p'.oscRaw)) (b = 0x07)])
  | unhook => (p, [.unhook])
  | csiDispatch =>
      if p.params.length = MAX_PARAMS then
        let p' := { p with ignoring := true }
        (p', [.markOverflow, .csiDispatch p'.params p'.intermediates p'.ignoring b])
      else
        let p' := { p with params := p.params ++ [p.param] }
        (p', [.csiDispatch p'.params p'.intermediates p'.ignoring b])
  | escDispatch => (p, [.escDispatch p.intermediates p.ignoring b])
  | VtAction.none => (p, [])
  | collect =>
      if p.intermediates.length = MAX_INTERMEDIATES then ({ p with ignoring := true }, [.markOverflow])
      else ({ p with intermediates := p.intermediates ++ [b] }, [])
  | param =>
      if p.params.length = MAX_PARAMS then ({ p with ignoring := true }, [.markOverflow])
      else if b = 0x3b then
        ({ p with params := p.params ++ [p.param], param := 0 }, [])
      else
        ({ p with param := satAdd (satMul p.param 10) (Int.ofNat (b - 0x30)) }, [])
  | clear => (clearParser p, [.markClear])
  | ignore => (p, [])
  | beginUtf8 => processUtf8 refeed p b
  | checkDcsSosPmApc =>
      if p.noDcsSosPmApc then
        let p1 := clearParser { p with state := .escape }
        ({ p1 with state := .ground },
         [.markClear, .escDispatch p1.intermediates p1.ignoring b])
      else (p, [])

/-- Assume a new state: the `self.state = state` assignment of
`perform_state_change`. -/
def withState (q : PState) (s : VtState) : PState := { q with state := s }

/-- The non-`Anywhere` arm of `Parser::perform_state_change`: exit action of
the old state, assume the new state, transition action, entry action of the
state the machine is now in. -/
def performStateChangeSeq (refeed : PState → Nat → PState × List Event) (p : PState)
    (s : VtState) (a : VtAction) (b : Nat) : PState × List Event :=
  let r1 := performAction refeed p (exitAction p.state) b
  let p1 := withState r1.1 s
  let r2 := performAction refeed p1 a b
  let r3 := performAction refeed r2.1 (entryAction r2.1.state) b
  (r3.1, r1.2 ++ r2.2 ++ r3.2)

/-- `Parser::perform_state_change`: for a packed destination of `anywhere`
just run the action; otherwise run the exit/transition/entry sequence. -/
def performStateChange (refeed : PState → Nat → PState × List Event) (p : PState)
    (s : VtState) (a : VtAction) (b : Nat) : PState × List Event :=
  match s with
  | .anywhere => performAction refeed p a b
  | s => performStateChangeSeq refeed p s a b

/-- The table-driven part of `Parser::advance` (everything after the
`State::Utf8` early return). -/
def advanceTable (refeed : PState → Nat → PState × List Event) (p : PState) (b : Nat) :
    PState × List Event :=
  performStateChange refeed p (lookupChange p.state b).1 (lookupChange p.state b).2 b

/-- `Parser::advance`, with an explicit bound `fuel` on the nesting depth of
the mutual recursion between `advance` and `process_utf8`.  `advanceF 2`
allows the single re-feed the source relies on; `advanceF_fuel_irrelevant`
shows more fuel never changes the result. -/
def advanceF : Nat → PState → Nat → PState × List Event
  | 0, p, _ => (p, [])
  | fuel + 1, p, b =>
      if p.state = .utf8 then processUtf8 (advanceF fuel) p b
      else advanceTable (advanceF fuel) p b

/-- `Parser::advance` for one byte. -/
def advance (p : PState) (b : Nat) : PState × List Event := advanceF 2 p b

/-- Feed a byte list through the parser, collecting all events. -/
def runFrom (p : PState) : List Nat → PState × List Event
  | [] => (p, [])
  | b :: rest =>
      ((runFrom (advance p b).1 rest).1,
       (advance p b).2 ++ (runFrom (advance p b).1 rest).2)

/-- Feed a byte list to a fresh parser. -/
def run (bytes : List Nat) : PState × List Event := runFrom initParser bytes

/-- `Parser::end`: signal end of stream.  In the Utf8 state this runs
`process_end_utf8` (the receiver again prints and grounds the VT state);
otherwise it resets the VT state to Ground. -/
def endStream (p : PState) : PState × List Event :=
  if p.state = .utf8 then
    let (u', emits) := utf8End p.utf8Parser
    ({ p with utf8Parser := u', state := if emits.isEmpty then p.state else .ground },
     emits.map Event.print)
  else ({ p with state := .ground }, [])

/-! ### The synchronized-update shim of `src/src/ansi.rs` -/

/-- Maximum number of bytes read in one synchronized update, 2 MiB
(`SYNC_BUFFER_SIZE`). -/
def SYNC_BUFFER_SIZE : Nat := 0x200000

/-- Number of bytes in the BSU/ESU CSI sequences (`SYNC_ESCAPE_LEN`). -/
def SYNC_ESCAPE_LEN : Nat := 8

/-- The BSU CSI sequence `ESC [ ? 2 0 2 6 h` (`BSU_CSI`). -/
def BSU_CSI : List Nat := [0x1b, 0x5b, 0x3f, 0x32, 0x30, 0x32, 0x36, 0x68]

/-- The ESU CSI sequence `ESC [ ? 2 0 2 6 l` (`ESU_CSI`). -/
def ESU_CSI : List Nat := [0x1b, 0x5b, 0x3f, 0x32, 0x30, 0x32, 0x36, 0x6c]

/-- The shim's `SyncState`: the `Timeout` handler reduced to its pending flag
(real time is outside the embedding) and the buffered bytes. -/
structure SyncState where
  timeoutPending : Bool
  buffer : List Nat
  deriving DecidableEq, Repr

/-- What the shim does to the world: feeding buffered bytes through the
wrapped `crate::Parser` (`flushed`), feeding fresh bytes through it normally
(`processed`), and reporting the synchronized-update private mode as unset.
The wrapped parser run and its handler are out of the shim's core and are
recorded as the byte lists fed; none of these is an error. -/
inductive SyncEvent
  | flushed (bytes : List Nat)
  | processed (bytes : List Nat)
  | unsetSyncMode
  deriving DecidableEq, Repr

/-- `Processor::stop_sync_internal`: process the buffered bytes up to
`bsuOffset` (the whole buffer when `none`) through the parser; with a new BSU
keep the tail of the buffer, otherwise report the mode unset, clear the
timeout, and clear the buffer. -/
def stopSyncInternal (st : SyncState) (bsuOffset : Option Nat) : SyncState × List SyncEvent :=
  let offset := bsuOffset.getD st.buffer.length
  match bsuOffset with
  | some o => ({ st with buffer := st.buffer.drop o }, [.flushed (st.buffer.take offset)])
  | none =>
      ({ timeoutPending := false, buffer := [] },
       [.flushed (st.buffer.take offset), .unsetSyncMode])

/-- The loop body of `Processor::advance_sync_csi`: walk the ESC positions
found in the search window from rightmost to leftmost; an exact BSU match
refreshes the timeout and records its offset, an exact ESU match stops the
synchronized update (passing any BSU offset found to its right) and breaks. -/
def advanceSyncCsiLoop (startOffset : Nat) (st : SyncState) (bsuOffset : Option Nat) :
    List Nat → SyncState × List SyncEvent
  | [] => (st, [])
  | index :: rest =>
      let offset := startOffset + index
      let escape := (st.buffer.drop offset).take SYNC_ESCAPE_LEN
      if escape = BSU_CSI then
        advanceSyncCsiLoop startOffset { st with timeoutPending := true } (some offset) rest
      else if escape = ESU_CSI then stopSyncInternal st bsuOffset
      else advanceSyncCsiLoop startOffset st bsuOffset rest

/-- The descending positions of ESC (0x1b) in a list: `memchr_iter(0x1B, _)`
reversed. -/
def escIndicesRev (l : List Nat) : List Nat :=
  ((List.range l.length).filter fun i => l.getD i 0 = 0x1b).reverse

/-- `Processor::advance_sync_csi`: handle BSU/ESU sequences that end within
the newly added bytes. -/
def advanceSyncCsi (st : SyncState) (newBytes : Nat) : SyncState × List SyncEvent :=
  let bufferLen := st.buffer.length
  let startOffset := (bufferLen - newBytes) - (SYNC_ESCAPE_LEN - 1)
  let endOffset := bufferLen - (SYNC_ESCAPE_LEN - 1)
  let searchBuffer := (st.buffer.drop startOffset).take (endOffset - startOffset)
  advanceSyncCsiLoop startOffset st none (escIndicesRev searchBuffer)

/-- `Processor::advance_sync`: buffer the chunk, or — when that would reach
the buffer cap — terminate the synchronized update (flushing the buffer and
reporting the mode unset) and only then parse the chunk normally. -/
def advanceSync (st : SyncState) (bytes : List Nat) : SyncState × List SyncEvent :=
  if SYNC_BUFFER_SIZE - 1 ≤ st.buffer.length + bytes.length then
    let (st1, evs) := stopSyncInternal st none
    (st1, evs ++ [.processed bytes])
  else
    advanceSyncCsi { st with buffer := st.buffer ++ bytes } bytes.length

/-! ### Invariants -/

/-- The OSC slice table forms a chain: starting from end `prevEnd`, each pair
begins where the previous one ended, is well-ordered, and ends within a raw
buffer of length `len`. -/
def chainFrom (prevEnd : Nat) : List (Nat × Nat) → Nat → Bool
  | [], _ => true
  | pr :: rest, len =>
      decide (pr.1 = prevEnd) && decide (pr.1 ≤ pr.2) && decide (pr.2 ≤ len) &&
        chainFrom pr.2 rest len

/-- Tracking "did an overflow happen since the most recent clear" along a
trace: a `markClear` resets it, a `markOverflow` raises it, every other event
leaves it. -/
def stepG (g : Bool) : Event → Bool
  | .markClear => false
  | .markOverflow => true
  | _ => g

/-- The overflow-since-clear flag after a list of events. -/
def updateG (g : Bool) (es : List Event) : Bool := es.foldl stepG g

/-- What claim C2 demands of one event, given the overflow-since-clear flag
`g` at its position: a `csi_dispatch` carries at most `MAX_PARAMS` parameters
and `MAX_INTERMEDIATES` intermediates, and its ignore flag equals `g`. -/
def csiEventOK (g : Bool) : Event → Prop
  | .csiDispatch ps ins ig _ =>
      ps.length ≤ MAX_PARAMS ∧ ins.length ≤ MAX_INTERMEDIATES ∧ ig = g
  | _ => True

/-- Claim C2's property over a trace, threading the overflow-since-clear
flag. -/
def CsiOK (g : Bool) : List Event → Prop
  | [] => True
  | e :: es => csiEventOK g e ∧ CsiOK (stepG g e) es

/-- Claim C4's property over a trace: every OSC dispatch marker carries a
slice chain that starts at offset 0 and stays within the raw buffer. -/
def OscOK (es : List Event) : Prop :=
  ∀ pairs rawLen, Event.markOsc pairs rawLen ∈ es → chainFrom 0 pairs rawLen = true

/-- The structural part of the parser invariant: buffer capacities are
respected and the OSC slice table is a chain over the raw buffer. -/
def Inv0 (p : PState) : Prop :=
  p.intermediates.length ≤ MAX_INTERMEDIATES ∧
  p.params.length ≤ MAX_PARAMS ∧
  chainFrom 0 p.oscParams p.oscRaw.length = true

/-- The full parser invariant: additionally, the VT machine sits in its Utf8
pseudo-state exactly while the UTF-8 decoder is mid-sequence. -/
def Inv (p : PState) : Prop :=
  Inv0 p ∧ (p.state = .utf8 ↔ p.utf8Parser.state ≠ .ground)

/-- One step is sound relative to a pre-state: the structural invariant holds
afterwards, `ignoring` tracks overflow-since-clear through the emitted
events, and the events satisfy the C2 and C4 trace properties. -/
def SOK (p : PState) (r : PState × List Event) : Prop :=
  Inv0 r.1 ∧ r.1.ignoring = updateG p.ignoring r.2 ∧
    CsiOK p.ignoring r.2 ∧ OscOK r.2

/-! ### Trace lemmas -/

theorem updateG_append (g : Bool) (es es' : List Event) :
    updateG g (es ++ es') = updateG (updateG g es) es' := by
  simp [updateG, List.foldl_append]

theorem updateG_nil (g : Bool) : updateG g [] = g := rfl

theorem CsiOK_append {g : Bool} {es es' : List Event} :
    CsiOK g (es ++ es') ↔ CsiOK g es ∧ CsiOK (updateG g es) es' := by
  induction es generalizing g with
  | nil => simp [CsiOK, updateG]
  | cons e es ih =>
      show csiEventOK g e ∧ CsiOK (stepG g e) (es ++ es') ↔ _
      rw [ih]
      show _ ↔ (csiEventOK g e ∧ CsiOK (stepG g e) es) ∧ CsiOK (updateG (stepG g e) es) es'
      exact and_assoc.symm

theorem OscOK_append {es es' : List Event} :
    OscOK (es ++ es') ↔ OscOK es ∧ OscOK es' := by
  constructor
  · intro h
    exact ⟨fun pr ln hm => h pr ln (List.mem_append_left _ hm),
           fun pr ln hm => h pr ln (List.mem_append_right _ hm)⟩
  · rintro ⟨h1, h2⟩ pr ln hm
    rcases List.mem_append.mp hm with hm | hm
    · exact h1 pr ln hm
    · exact h2 pr ln hm

theorem updateG_map_print (g : Bool) (l : List Nat) :
    updateG g (l.map Event.print) = g := by
  induction l with
  | nil => rfl
  | cons a l ih => simpa [updateG, stepG] using ih

theorem CsiOK_map_print (g : Bool) (l : List Nat) : CsiOK g (l.map Event.print) := by
  induction l with
  | nil => trivial
  | cons a l ih => exact ⟨trivial, ih⟩

theorem OscOK_map_print (l : List Nat) : OscOK (l.map Event.print) := by
  intro pr ln hm
  rcases List.mem_map.mp hm with ⟨x, _, hx⟩
  cases hx

/-! ### OSC chain lemmas -/

theorem chainFrom_mono {ps : List (Nat × Nat)} {e len len' : Nat}
    (h : chainFrom e ps len = true) (hle : len ≤ len') : chainFrom e ps len' = true := by
  induction ps generalizing e with
  | nil => rfl
  | cons pr rest ih =>
      simp only [chainFrom, Bool.and_eq_true, decide_eq_true_eq] at h ⊢
      exact ⟨⟨⟨h.1.1.1, h.1.1.2⟩, le_trans h.1.2 hle⟩, ih h.2⟩

theorem chainFrom_snoc {ps : List (Nat × Nat)} {e len idx : Nat}
    (h : chainFrom e ps len = true) (he : e ≤ len) (hle : len ≤ idx) :
    chainFrom e (ps ++ [((ps.getLastD (0, e)).2, idx)]) idx = true := by
  induction ps generalizing e with
  | nil =>
      simp only [List.nil_append, List.getLastD_nil, chainFrom, Bool.and_eq_true,
        decide_eq_true_eq]
      exact ⟨⟨⟨trivial, le_trans he hle⟩, le_rfl⟩, trivial⟩
  | cons pr rest ih =>
      simp only [chainFrom, Bool.and_eq_true, decide_eq_true_eq] at h
      obtain ⟨⟨⟨h1, h2⟩, h3⟩, h4⟩ := h
      have heq : ((pr :: rest).getLastD (0, e)).2 = (rest.getLastD (0, pr.2)).2 := by
        cases rest <;> simp [List.getLastD]
      have htail : chainFrom pr.2 (rest ++ [((rest.getLastD (0, pr.2)).2, idx)]) idx = true :=
        ih h4 h3
      simp only [List.cons_append, chainFrom, Bool.and_eq_true, decide_eq_true_eq, heq]
      exact ⟨⟨⟨h1, h2⟩, le_trans h3 hle⟩, htail⟩

/-! ### UTF-8 decoder lemmas -/

theorem utf8Next_ground_not_continuation (b : Nat) (hb : b < 256) :
    (utf8Next .ground b).2 ≠ .invalidContinuation :=
  have h : ∀ x : Fin 256, (utf8Next .ground x.val).2 ≠ .invalidContinuation := by decide
  h ⟨b, hb⟩

theorem utf8Next_ground_class (s : Utf8State) (b : Nat) (hb : b < 256) :
    (utf8Next s b).1 = .ground ↔
      ((utf8Next s b).2 = .emitByte ∨ (utf8Next s b).2 = .setByte1 ∨
       (utf8Next s b).2 = .invalidByte ∨ (utf8Next s b).2 = .invalidContinuation) :=
  have h : ∀ (s : Utf8State) (x : Fin 256),
      (utf8Next s x.val).1 = .ground ↔
        ((utf8Next s x.val).2 = .emitByte ∨ (utf8Next s x.val).2 = .setByte1 ∨
         (utf8Next s x.val).2 = .invalidByte ∨
         (utf8Next s x.val).2 = .invalidContinuation) := by decide
  h s ⟨b, hb⟩

theorem utf8Step_not_consumed {u : U8} {b : Nat} (hb : b < 256)
    (h : (utf8Step u b).2.2 = false) :
    (utf8Step u b).1.state = .ground ∧ (utf8Step u b).2.1 = [REPLACEMENT] := by
  cases ha : (utf8Next u.state b).2 <;> simp only [utf8Step, ha] at h ⊢ <;>
    first
    | (cases h; done)
    | exact ⟨(utf8Next_ground_class u.state b hb).mpr (by simp [ha]), trivial⟩

theorem utf8Step_ground_consumed (u : U8) (b : Nat) (hb : b < 256)
    (h : u.state = .ground) : (utf8Step u b).2.2 = true := by
  have hne := utf8Next_ground_not_continuation b hb
  rw [← h] at hne
  cases ha : (utf8Next u.state b).2 <;> simp only [utf8Step, ha] <;>
    first
    | rfl
    | exact absurd ha hne

theorem utf8Step_no_emit {u : U8} {b : Nat} (hb : b < 256)
    (h : (utf8Step u b).2.1 = []) :
    (utf8Step u b).1.state ≠ .ground ∧ (utf8Step u b).2.2 = true := by
  cases ha : (utf8Next u.state b).2 <;> simp only [utf8Step, ha] at h ⊢ <;>
    first
    | (cases h; done)
    | exact ⟨fun hg => by
        rcases (utf8Next_ground_class u.state b hb).mp hg with h' | h' | h' | h' <;>
          simp [ha] at h', trivial⟩

theorem utf8Step_emit_ground {u : U8} {b : Nat} (hb : b < 256)
    (h : (utf8Step u b).2.1 ≠ []) :
    (utf8Step u b).1.state = .ground := by
  cases ha : (utf8Next u.state b).2 <;> simp only [utf8Step, ha] at h ⊢ <;>
    first
    | exact absurd rfl h
    | exact (utf8Next_ground_class u.state b hb).mpr (by simp [ha])

/-! ### Transition table lemmas -/

theorem lookup_utf8_begin (s : VtState) (b : Nat) (hb : b < 256) :
    (lookupChange s b).1 = .utf8 → (lookupChange s b).2 = .beginUtf8 :=
  have h : ∀ (s : VtState) (x : Fin 256),
      (lookupChange s x.val).1 = .utf8 → (lookupChange s x.val).2 = .beginUtf8 := by decide
  h s ⟨b, hb⟩

theorem lookup_begin_utf8 (s : VtState) (b : Nat) (hb : b < 256) :
    (lookupChange s b).2 = .beginUtf8 → (lookupChange s b).1 = .utf8 :=
  have h : ∀ (s : VtState) (x : Fin 256),
      (lookupChange s x.val).2 = .beginUtf8 → (lookupChange s x.val).1 = .utf8 := by decide
  h s ⟨b, hb⟩

theorem lookup_opaque (s : VtState) (b : Nat) (hb : b < 256) :
    (lookupChange s b).1 = .dcsEntry ∨ (lookupChange s b).1 = .sosPmApcString →
      s = .escape ∧ (lookupChange s b).2 = .checkDcsSosPmApc :=
  have h : ∀ (s : VtState) (x : Fin 256),
      (lookupChange s x.val).1 = .dcsEntry ∨ (lookupChange s x.val).1 = .sosPmApcString →
        s = .escape ∧ (lookupChange s x.val).2 = .checkDcsSosPmApc := by decide
  h s ⟨b, hb⟩

theorem lookup_check_opaque (s : VtState) (b : Nat) (hb : b < 256) :
    (lookupChange s b).2 = .checkDcsSosPmApc →
      (lookupChange s b).1 = .dcsEntry ∨ (lookupChange s b).1 = .sosPmApcString :=
  have h : ∀ (s : VtState) (x : Fin 256),
      (lookupChange s x.val).2 = .checkDcsSosPmApc →
        (lookupChange s x.val).1 = .dcsEntry ∨ (lookupChange s x.val).1 = .sosPmApcString := by
    decide
  h s ⟨b, hb⟩

theorem entryAction_cases (s : VtState) :
    entryAction s = .clear ∨ entryAction s = .hook ∨ entryAction s = .oscStart ∨
      entryAction s = .none := by
  cases s <;> simp [entryAction]

theorem exitAction_cases (s : VtState) :
    exitAction s = .unhook ∨ exitAction s = .oscEnd ∨ exitAction s = .none := by
  cases s <;> simp [exitAction]

theorem entryAction_ne_begin (s : VtState) : entryAction s ≠ .beginUtf8 := by
  cases s <;> simp [entryAction]

theorem entryAction_ne_check (s : VtState) : entryAction s ≠ .checkDcsSosPmApc := by
  cases s <;> simp [entryAction]

theorem exitAction_ne_begin (s : VtState) : exitAction s ≠ .beginUtf8 := by
  cases s <;> simp [exitAction]

theorem exitAction_ne_check (s : VtState) : exitAction s ≠ .checkDcsSosPmApc := by
  cases s <;> simp [exitAction]

/-! ### Soundness of single steps -/

theorem SOK_refl (p : PState) (h : Inv0 p) : SOK p (p, []) :=
  ⟨h, rfl, trivial, fun _ _ hm => absurd hm (List.not_mem_nil _)⟩

theorem SOK_trans {p : PState} {r1 r2 : PState × List Event}
    (h1 : SOK p r1) (h2 : SOK r1.1 r2) : SOK p (r2.1, r1.2 ++ r2.2) := by
  obtain ⟨hq, hg1, hc1, ho1⟩ := h1
  obtain ⟨hr, hg2, hc2, ho2⟩ := h2
  refine ⟨hr, ?_, ?_, OscOK_append.mpr ⟨ho1, ho2⟩⟩
  · show r2.1.ignoring = updateG p.ignoring (r1.2 ++ r2.2)
    rw [updateG_append, ← hg1]
    exact hg2
  · exact CsiOK_append.mpr ⟨hc1, by rw [← hg1]; exact hc2⟩

theorem SOK_setState {p : PState} {r : PState × List Event} (s : VtState)
    (h : SOK p r) : SOK p ({ r.1 with state := s }, r.2) :=
  ⟨h.1, h.2.1, h.2.2.1, h.2.2.2⟩

theorem performAction_utf8Parser (f : PState → Nat → PState × List Event) (p : PState)
    (a : VtAction) (b : Nat) (ha : a ≠ VtAction.beginUtf8) :
    (performAction f p a b).1.utf8Parser = p.utf8Parser := by
  cases a <;>
    first
    | exact absurd rfl ha
    | (simp only [performAction, oscEndCommit, clearParser]; split_ifs <;> rfl)
    | rfl

theorem performAction_state (f : PState → Nat → PState × List Event) (p : PState)
    (a : VtAction) (b : Nat) (ha : a ≠ VtAction.beginUtf8)
    (hc : a ≠ VtAction.checkDcsSosPmApc) :
    (performAction f p a b).1.state = p.state := by
  cases a <;>
    first
    | exact absurd rfl ha
    | exact absurd rfl hc
    | (simp only [performAction, oscEndCommit, clearParser]; split_ifs <;> rfl)
    | rfl

theorem oscEndCommit_chain {p : PState}
    (h : chainFrom 0 p.oscParams p.oscRaw.length = true) :
    chainFrom 0 (oscEndCommit p).oscParams (oscEndCommit p).oscRaw.length = true := by
  unfold oscEndCommit
  split_ifs with h1 h2
  · exact h
  · have hnil : p.oscParams = [] := List.length_eq_zero.mp h2
    show chainFrom 0 (p.oscParams ++ [(0, p.oscRaw.length)]) p.oscRaw.length = true
    simp only [hnil, List.nil_append, chainFrom, Bool.and_eq_true, decide_eq_true_eq]
    exact ⟨⟨⟨trivial, Nat.zero_le _⟩, le_rfl⟩, trivial⟩
  · exact chainFrom_snoc h (Nat.zero_le _) le_rfl

theorem oscEndCommit_ignoring (p : PState) : (oscEndCommit p).ignoring = p.ignoring := by
  unfold oscEndCommit
  split_ifs <;> rfl

theorem oscEndCommit_intermediates (p : PState) :
    (oscEndCommit p).intermediates = p.intermediates := by
  unfold oscEndCommit
  split_ifs <;> rfl

theorem oscEndCommit_params (p : PState) : (oscEndCommit p).params = p.params := by
  unfold oscEndCommit
  split_ifs <;> rfl

theorem performAction_SOK (f : PState → Nat → PState × List Event) (p : PState)
    (a : VtAction) (b : Nat) (hb : b < 256) (h0 : Inv0 p)
    (hU : a = VtAction.beginUtf8 → p.utf8Parser.state = .ground) :
    SOK p (performAction f p a b) := by
  obtain ⟨hI, hP, hO⟩ := h0
  cases a
  case none => exact SOK_refl p ⟨hI, hP, hO⟩
  case ignore => exact SOK_refl p ⟨hI, hP, hO⟩
  case print =>
      exact ⟨⟨hI, hP, hO⟩, rfl, ⟨trivial, trivial⟩,
        by intro pr ln hm; simp [performAction] at hm⟩
  case execute =>
      exact ⟨⟨hI, hP, hO⟩, rfl, ⟨trivial, trivial⟩,
        by intro pr ln hm; simp [performAction] at hm⟩
  case put =>
      exact ⟨⟨hI, hP, hO⟩, rfl, ⟨trivial, trivial⟩,
        by intro pr ln hm; simp [performAction] at hm⟩
  case unhook =>
      exact ⟨⟨hI, hP, hO⟩, rfl, ⟨trivial, trivial⟩,
        by intro pr ln hm; simp [performAction] at hm⟩
  case escDispatch =>
      exact ⟨⟨hI, hP, hO⟩, rfl, ⟨trivial, trivial⟩,
        by intro pr ln hm; simp [performAction] at hm⟩
  case hook =>
      simp only [performAction]
      split_ifs with hfull
      · exact ⟨⟨hI, hP, hO⟩, rfl, ⟨trivial, trivial, trivial⟩,
          by intro pr ln hm; simp at hm⟩
      · refine ⟨⟨hI, ?_, hO⟩, rfl, ⟨trivial, trivial⟩, by intro pr ln hm; simp at hm⟩
        show (p.params ++ [p.param]).length ≤ MAX_PARAMS
        simp only [MAX_PARAMS] at hP hfull ⊢
        simp only [List.length_append, List.length_singleton]
        omega
  case csiDispatch =>
      simp only [performAction]
      split_ifs with hfull
      · exact ⟨⟨hI, hP, hO⟩, rfl, ⟨trivial, ⟨hP, hI, rfl⟩, trivial⟩,
          by intro pr ln hm; simp at hm⟩
      · have hlen : (p.params ++ [p.param]).length ≤ MAX_PARAMS := by
          simp only [MAX_PARAMS] at hP hfull ⊢
          simp only [List.length_append, List.length_singleton]
          omega
        exact ⟨⟨hI, hlen, hO⟩, rfl, ⟨⟨hlen, hI, rfl⟩, trivial⟩,
          by intro pr ln hm; simp at hm⟩
  case collect =>
      simp only [performAction]
      split_ifs with hfull
      · exact ⟨⟨hI, hP, hO⟩, rfl, ⟨trivial, trivial⟩, by intro pr ln hm; simp at hm⟩
      · refine ⟨⟨?_, hP, hO⟩, rfl, trivial, by intro pr ln hm; simp at hm⟩
        show (p.intermediates ++ [b]).length ≤ MAX_INTERMEDIATES
        simp only [MAX_INTERMEDIATES] at hI hfull ⊢
        simp only [List.length_append, List.length_singleton]
        omega
  case param =>
      simp only [performAction]
      split_ifs with hfull hsemi
      · exact ⟨⟨hI, hP, hO⟩, rfl, ⟨trivial, trivial⟩, by intro pr ln hm; simp at hm⟩
      · refine ⟨⟨hI, ?_, hO⟩, rfl, trivial, by intro pr ln hm; simp at hm⟩
        show (p.params ++ [p.param]).length ≤ MAX_PARAMS
        simp only [MAX_PARAMS] at hP hfull ⊢
        simp only [List.length_append, List.length_singleton]
        omega
      · exact ⟨⟨hI, hP, hO⟩, rfl, trivial, by intro pr ln hm; simp at hm⟩
  case clear =>
      exact ⟨⟨Nat.zero_le _, Nat.zero_le _, hO⟩, rfl, ⟨trivial, trivial⟩,
        by intro pr ln hm; simp [performAction, clearParser] at hm⟩
  case oscStart =>
      exact ⟨⟨hI, hP, rfl⟩, rfl, trivial, by intro pr ln hm; simp [performAction] at hm⟩
  case oscPut =>
      simp only [performAction]
      split_ifs with hsemi hfull hzero
      · exact SOK_refl p ⟨hI, hP, hO⟩
      · refine ⟨⟨hI, hP, ?_⟩, rfl, trivial, by intro pr ln hm; simp at hm⟩
        have hnil : p.oscParams = [] := List.length_eq_zero.mp hzero
        show chainFrom 0 (p.oscParams ++ [(0, p.oscRaw.length)]) p.oscRaw.length = true
        simp only [hnil, List.nil_append, chainFrom, Bool.and_eq_true, decide_eq_true_eq]
        exact ⟨⟨⟨trivial, Nat.zero_le _⟩, le_rfl⟩, trivial⟩
      · exact ⟨⟨hI, hP, chainFrom_snoc hO (Nat.zero_le _) le_rfl⟩, rfl, trivial,
          by intro pr ln hm; simp at hm⟩
      · refine ⟨⟨hI, hP, ?_⟩, rfl, trivial, by intro pr ln hm; simp at hm⟩
        show chainFrom 0 p.oscParams (p.oscRaw ++ [b]).length = true
        exact chainFrom_mono hO (by simp)
  case oscEnd =>
      have hchain := oscEndCommit_chain hO
      simp only [performAction]
      refine ⟨⟨?_, ?_, hchain⟩, ?_, ⟨trivial, trivial, trivial⟩, ?_⟩
      · rw [oscEndCommit_intermediates]; exact hI
      · rw [oscEndCommit_params]; exact hP
      · show (oscEndCommit p).ignoring = _
        rw [oscEndCommit_ignoring]
        rfl
      · intro pr ln hm
        simp only [List.mem_cons, List.mem_singleton] at hm
        rcases hm with hm | hm | hm
        · obtain ⟨h1, h2⟩ := Event.markOsc.inj hm
          rw [h1, h2]
          exact hchain
        · cases hm
        · cases hm
  case beginUtf8 =>
      have hg := hU rfl
      have hc : (utf8Step p.utf8Parser b).2.2 = true :=
        utf8Step_ground_consumed _ _ hb hg
      show SOK p (processUtf8 f p b)
      simp only [processUtf8, hc, if_true]
      refine ⟨⟨hI, hP, hO⟩, ?_, CsiOK_map_print _ _, OscOK_map_print _⟩
      rw [updateG_map_print]
  case checkDcsSosPmApc =>
      simp only [performAction]
      split_ifs with hd
      · exact ⟨⟨Nat.zero_le _, Nat.zero_le _, hO⟩, rfl, ⟨trivial, trivial, trivial⟩,
          by intro pr ln hm; simp [clearParser] at hm⟩
      · exact SOK_refl p ⟨hI, hP, hO⟩

theorem performStateChange_ne (f : PState → Nat → PState × List Event) (p : PState)
    (s : VtState) (a : VtAction) (b : Nat) (hs : s ≠ .anywhere) :
    performStateChange f p s a b = performStateChangeSeq f p s a b := by
  cases s
  case anywhere => exact absurd rfl hs
  all_goals rfl

theorem processUtf8_consumed_eq {f : PState → Nat → PState × List Event} {p : PState}
    {b : Nat} (hc : (utf8Step p.utf8Parser b).2.2 = true) :
    processUtf8 f p b =
      ({ p with
          utf8Parser := (utf8Step p.utf8Parser b).1
          state := if (utf8Step p.utf8Parser b).2.1.isEmpty then p.state else .ground },
       (utf8Step p.utf8Parser b).2.1.map Event.print) := by
  simp only [processUtf8, hc, if_true]

theorem processUtf8_consumed_SOK (f : PState → Nat → PState × List Event) (p : PState)
    (b : Nat) (h0 : Inv0 p) (hc : (utf8Step p.utf8Parser b).2.2 = true) :
    SOK p (processUtf8 f p b) := by
  rw [processUtf8_consumed_eq hc]
  exact ⟨h0, by rw [updateG_map_print], CsiOK_map_print _ _, OscOK_map_print _⟩

theorem advanceTable_SOK (f : PState → Nat → PState × List Event) (p : PState) (b : Nat)
    (hb : b < 256) (hInv : Inv p) (hst : p.state ≠ .utf8) :
    SOK p (advanceTable f p b) ∧ Inv (advanceTable f p b).1 := by
  obtain ⟨h0, h4⟩ := hInv
  have hg : p.utf8Parser.state = .ground := by
    by_contra hng
    exact hst (h4.mpr hng)
  unfold advanceTable
  by_cases hs : (lookupChange p.state b).1 = .anywhere
  · rw [hs]
    show SOK p (performAction f p (lookupChange p.state b).2 b) ∧
      Inv (performAction f p (lookupChange p.state b).2 b).1
    have S := performAction_SOK f p (lookupChange p.state b).2 b hb h0 (fun _ => hg)
    refine ⟨S, S.1, ?_⟩
    by_cases hA : (lookupChange p.state b).2 = .beginUtf8
    · have hx := lookup_begin_utf8 p.state b hb hA
      rw [hs] at hx
      exact VtState.noConfusion hx
    by_cases hC : (lookupChange p.state b).2 = .checkDcsSosPmApc
    · rcases lookup_check_opaque p.state b hb hC with hx | hx <;>
        (rw [hs] at hx; exact VtState.noConfusion hx)
    · rw [performAction_state f p _ b hA hC, performAction_utf8Parser f p _ b hA]
      exact h4
  · rw [performStateChange_ne f p _ _ b hs]
    have hexb := exitAction_ne_begin p.state
    have S1 : SOK p (performAction f p (exitAction p.state) b) :=
      performAction_SOK f p _ b hb h0 (fun h => absurd h hexb)
    have hu1 : (performAction f p (exitAction p.state) b).1.utf8Parser = p.utf8Parser :=
      performAction_utf8Parser f p _ b hexb
    set r1 := performAction f p (exitAction p.state) b with hr1def
    set p1 : PState := { r1.1 with state := (lookupChange p.state b).1 } with hp1def
    have S1' : SOK p (p1, r1.2) := SOK_setState _ S1
    have hu1' : p1.utf8Parser = p.utf8Parser := hu1
    have hgp1 : p1.utf8Parser.state = .ground := by rw [hu1']; exact hg
    have S2 : SOK p1 (performAction f p1 (lookupChange p.state b).2 b) :=
      performAction_SOK f p1 _ b hb S1'.1 (fun _ => hgp1)
    set r2 := performAction f p1 (lookupChange p.state b).2 b with hr2def
    have S3 : SOK r2.1 (performAction f r2.1 (entryAction r2.1.state) b) :=
      performAction_SOK f r2.1 _ b hb S2.1 (fun h => absurd h (entryAction_ne_begin _))
    set r3 := performAction f r2.1 (entryAction r2.1.state) b with hr3def
    have T12 : SOK p (r2.1, r1.2 ++ r2.2) := SOK_trans S1' S2
    have T : SOK p (r3.1, r1.2 ++ r2.2 ++ r3.2) := SOK_trans T12 S3
    have heq : performStateChangeSeq f p (lookupChange p.state b).1
        (lookupChange p.state b).2 b = (r3.1, r1.2 ++ r2.2 ++ r3.2) := rfl
    rw [heq]
    have hstate3 : r3.1.state = r2.1.state := by
      rw [hr3def]
      exact performAction_state f r2.1 _ b (entryAction_ne_begin _) (entryAction_ne_check _)
    have hu3 : r3.1.utf8Parser = r2.1.utf8Parser := by
      rw [hr3def]
      exact performAction_utf8Parser f r2.1 _ b (entryAction_ne_begin _)
    refine ⟨T, T.1, ?_⟩
    show r3.1.state = .utf8 ↔ r3.1.utf8Parser.state ≠ .ground
    rw [hstate3, hu3]
    by_cases hA : (lookupChange p.state b).2 = .beginUtf8
    · have hsu : (lookupChange p.state b).1 = .utf8 := lookup_begin_utf8 p.state b hb hA
      rw [hr2def, hA]
      show (processUtf8 f p1 b).1.state = .utf8 ↔
        (processUtf8 f p1 b).1.utf8Parser.state ≠ .ground
      have hc := utf8Step_ground_consumed p1.utf8Parser b hb hgp1
      rw [processUtf8_consumed_eq hc]
      by_cases he : (utf8Step p1.utf8Parser b).2.1 = []
      · have hne := (utf8Step_no_emit hb he).1
        simp only [he, List.isEmpty_nil, if_true]
        exact ⟨fun _ => hne, fun _ => hsu⟩
      · have hgr := utf8Step_emit_ground hb he
        have hemp : (utf8Step p1.utf8Parser b).2.1.isEmpty = false := by
          cases hval : (utf8Step p1.utf8Parser b).2.1
          · exact absurd hval he
          · rfl
        simp only [hemp, Bool.false_eq_true, if_false]
        exact ⟨fun h => VtState.noConfusion h, fun h => absurd hgr h⟩
    · by_cases hC : (lookupChange p.state b).2 = .checkDcsSosPmApc
      · have hor := lookup_check_opaque p.state b hb hC
        rw [hr2def, hC]
        show (performAction f p1 .checkDcsSosPmApc b).1.state = .utf8 ↔
          (performAction f p1 .checkDcsSosPmApc b).1.utf8Parser.state ≠ .ground
        simp only [performAction]
        split_ifs with hd
        · exact ⟨fun h => h.elim, fun h => absurd hgp1 h⟩
        · constructor
          · intro h
            have hx : (lookupChange p.state b).1 = .utf8 := h
            rcases hor with h' | h' <;> (rw [h'] at hx; exact VtState.noConfusion hx)
          · intro h
            exact absurd hgp1 h
      · have hstate2 : r2.1.state = p1.state := by
          rw [hr2def]
          exact performAction_state f p1 _ b hA hC
        have hu2 : r2.1.utf8Parser = p1.utf8Parser := by
          rw [hr2def]
          exact performAction_utf8Parser f p1 _ b hA
        rw [hstate2, hu2]
        constructor
        · intro h
          have hx : (lookupChange p.state b).1 = .utf8 := h
          exact absurd (lookup_utf8_begin p.state b hb hx) hA
        · intro h
          exact absurd hgp1 h

theorem initParser_Inv : Inv initParser :=
  ⟨⟨Nat.zero_le _, Nat.zero_le _, rfl⟩,
   ⟨fun h => VtState.noConfusion h, fun h => absurd rfl h⟩⟩

theorem advanceF_SOK : ∀ (fuel : Nat) (p : PState) (b : Nat), b < 256 → Inv p →
    SOK p (advanceF fuel p b) ∧ Inv (advanceF fuel p b).1 := by
  intro fuel
  induction fuel with
  | zero =>
      intro p b _ hInv
      exact ⟨SOK_refl p hInv.1, hInv⟩
  | succ n ih =>
      intro p b hb hInv
      by_cases hst : p.state = .utf8
      · have hadv : advanceF (n + 1) p b = processUtf8 (advanceF n) p b := by
          simp [advanceF, hst]
        rw [hadv]
        cases hc : (utf8Step p.utf8Parser b).2.2
        · obtain ⟨hgr, hrep⟩ := utf8Step_not_consumed hb hc
          have heq : processUtf8 (advanceF n) p b =
              ((advanceF n ({ p with
                  utf8Parser := (utf8Step p.utf8Parser b).1
                  state := .ground }) b).1,
               [Event.print REPLACEMENT] ++
                 (advanceF n ({ p with
                     utf8Parser := (utf8Step p.utf8Parser b).1
                     state := .ground }) b).2) := by
            simp only [processUtf8, hc, hrep, List.isEmpty_cons, Bool.false_eq_true,
              if_false, List.map_cons, List.map_nil]
          rw [heq]
          have hInv' : Inv ({ p with
              utf8Parser := (utf8Step p.utf8Parser b).1
              state := .ground } : PState) :=
            ⟨hInv.1, ⟨fun h => VtState.noConfusion h, fun h => absurd hgr h⟩⟩
          obtain ⟨S', I'⟩ := ih _ b hb hInv'
          refine ⟨?_, I'⟩
          have S0 : SOK p (({ p with
              utf8Parser := (utf8Step p.utf8Parser b).1
              state := .ground } : PState), [Event.print REPLACEMENT]) :=
            ⟨hInv'.1, rfl, ⟨trivial, trivial⟩, by intro pr ln hm; simp at hm⟩
          exact SOK_trans S0 S'
        · refine ⟨processUtf8_consumed_SOK (advanceF n) p b hInv.1 hc, ?_⟩
          rw [processUtf8_consumed_eq hc]
          refine ⟨hInv.1, ?_⟩
          by_cases he : (utf8Step p.utf8Parser b).2.1 = []
          · have hne := (utf8Step_no_emit hb he).1
            simp only [he, List.isEmpty_nil, if_true]
            exact ⟨fun _ => hne, fun _ => hst⟩
          · have hgr := utf8Step_emit_ground hb he
            have hemp : (utf8Step p.utf8Parser b).2.1.isEmpty = false := by
              cases hval : (utf8Step p.utf8Parser b).2.1
              · exact absurd hval he
              · rfl
            simp only [hemp, Bool.false_eq_true, if_false]
            exact ⟨fun h => VtState.noConfusion h, fun h => absurd hgr h⟩
      · have hadv : advanceF (n + 1) p b = advanceTable (advanceF n) p b := by
          simp [advanceF, hst]
        rw [hadv]
        exact advanceTable_SOK (advanceF n) p b hb hInv hst

theorem advance_SOK (p : PState) (b : Nat) (hb : b < 256) (hInv : Inv p) :
    SOK p (advance p b) ∧ Inv (advance p b).1 :=
  advanceF_SOK 2 p b hb hInv

theorem runFrom_SOK : ∀ (B : List Nat) (p : PState), (∀ b ∈ B, b < 256) → Inv p →
    SOK p (runFrom p B) ∧ Inv (runFrom p B).1 := by
  intro B
  induction B with
  | nil =>
      intro p _ hInv
      exact ⟨SOK_refl p hInv.1, hInv⟩
  | cons b B ih =>
      intro p hB hInv
      have hb : b < 256 := hB b (List.mem_cons_self b B)
      obtain ⟨S1, I1⟩ := advance_SOK p b hb hInv
      obtain ⟨S2, I2⟩ := ih (advance p b).1 (fun x hx => hB x (List.mem_cons_of_mem b hx)) I1
      refine ⟨?_, I2⟩
      show SOK p ((runFrom (advance p b).1 B).1,
        (advance p b).2 ++ (runFrom (advance p b).1 B).2)
      exact SOK_trans S1 S2

/-! ### Fuel irrelevance: one re-feed is all `advance` ever needs -/

theorem performAction_f_eq (f g : PState → Nat → PState × List Event) (p : PState)
    (a : VtAction) (b : Nat) (ha : a ≠ VtAction.beginUtf8) :
    performAction f p a b = performAction g p a b := by
  cases a <;> first | exact absurd rfl ha | rfl

theorem processUtf8_f_eq (f g : PState → Nat → PState × List Event) (p : PState)
    (b : Nat) (hb : b < 256) (hg : p.utf8Parser.state = .ground) :
    processUtf8 f p b = processUtf8 g p b := by
  have hc := utf8Step_ground_consumed p.utf8Parser b hb hg
  rw [processUtf8_consumed_eq hc, processUtf8_consumed_eq hc]

theorem performAction_f_eq_ground (f g : PState → Nat → PState × List Event) (p : PState)
    (a : VtAction) (b : Nat) (hb : b < 256) (hg : p.utf8Parser.state = .ground) :
    performAction f p a b = performAction g p a b := by
  by_cases ha : a = VtAction.beginUtf8
  · subst ha
    show processUtf8 f p b = processUtf8 g p b
    exact processUtf8_f_eq f g p b hb hg
  · exact performAction_f_eq f g p a b ha

theorem performStateChangeSeq_f_eq (f g : PState → Nat → PState × List Event)
    (p : PState) (s : VtState) (a : VtAction) (b : Nat) (hb : b < 256)
    (hg : p.utf8Parser.state = .ground) :
    performStateChangeSeq f p s a b = performStateChangeSeq g p s a b := by
  unfold performStateChangeSeq
  have he1 := performAction_f_eq f g p (exitAction p.state) b (exitAction_ne_begin _)
  have hu1 : (performAction g p (exitAction p.state) b).1.utf8Parser = p.utf8Parser :=
    performAction_utf8Parser g p _ b (exitAction_ne_begin _)
  have he2 := performAction_f_eq_ground f g
    (withState (performAction g p (exitAction p.state) b).1 s) a b hb
    (by show (performAction g p (exitAction p.state) b).1.utf8Parser.state = _
        rw [hu1]
        exact hg)
  have he3 := performAction_f_eq f g
    (performAction g (withState (performAction g p (exitAction p.state) b).1 s) a b).1
    (entryAction
      (performAction g (withState (performAction g p (exitAction p.state) b).1 s) a b).1.state)
    b (entryAction_ne_begin _)
  simp only [he1, he2, he3]

theorem advanceTable_f_eq (f g : PState → Nat → PState × List Event) (p : PState)
    (b : Nat) (hb : b < 256) (hg : p.utf8Parser.state = .ground) :
    advanceTable f p b = advanceTable g p b := by
  unfold advanceTable
  by_cases hs : (lookupChange p.state b).1 = .anywhere
  · rw [hs]
    show performAction f p (lookupChange p.state b).2 b =
      performAction g p (lookupChange p.state b).2 b
    exact performAction_f_eq_ground f g p _ b hb hg
  · rw [performStateChange_ne f p _ _ b hs, performStateChange_ne g p _ _ b hs]
    exact performStateChangeSeq_f_eq f g p _ _ b hb hg

theorem processUtf8_fuel (n : Nat) (p : PState) (b : Nat) (hb : b < 256) :
    processUtf8 (advanceF (n + 1)) p b = processUtf8 (advanceF 1) p b := by
  cases hc : (utf8Step p.utf8Parser b).2.2
  · obtain ⟨hgr, hrep⟩ := utf8Step_not_consumed hb hc
    have hone : ∀ (m : Nat), processUtf8 (advanceF (m + 1)) p b =
        ((advanceF (m + 1) ({ p with
            utf8Parser := (utf8Step p.utf8Parser b).1
            state := .ground }) b).1,
         [Event.print REPLACEMENT] ++
           (advanceF (m + 1) ({ p with
               utf8Parser := (utf8Step p.utf8Parser b).1
               state := .ground }) b).2) := by
      intro m
      simp only [processUtf8, hc, hrep, List.isEmpty_cons, Bool.false_eq_true,
        if_false, List.map_cons, List.map_nil]
    rw [hone n, hone 0]
    have hinner : advanceF (n + 1) ({ p with
        utf8Parser := (utf8Step p.utf8Parser b).1
        state := .ground } : PState) b =
      advanceF 1 ({ p with
        utf8Parser := (utf8Step p.utf8Parser b).1
        state := .ground } : PState) b := by
      have h1 : advanceF (n + 1) ({ p with
          utf8Parser := (utf8Step p.utf8Parser b).1
          state := .ground } : PState) b =
        advanceTable (advanceF n) ({ p with
          utf8Parser := (utf8Step p.utf8Parser b).1
          state := .ground } : PState) b := by
        simp [advanceF]
      have h2 : advanceF 1 ({ p with
          utf8Parser := (utf8Step p.utf8Parser b).1
          state := .ground } : PState) b =
        advanceTable (advanceF 0) ({ p with
          utf8Parser := (utf8Step p.utf8Parser b).1
          state := .ground } : PState) b := by
        simp [advanceF]
      rw [h1, h2]
      exact advanceTable_f_eq _ _ _ b hb hgr
    rw [hinner]
  · rw [processUtf8_consumed_eq hc, processUtf8_consumed_eq hc]

theorem performAction_fuel (n : Nat) (p : PState) (a : VtAction) (b : Nat)
    (hb : b < 256) :
    performAction (advanceF (n + 1)) p a b = performAction (advanceF 1) p a b := by
  by_cases ha : a = VtAction.beginUtf8
  · subst ha
    show processUtf8 (advanceF (n + 1)) p b = processUtf8 (advanceF 1) p b
    exact processUtf8_fuel n p b hb
  · exact performAction_f_eq _ _ p a b ha

theorem performStateChangeSeq_congr (f g : PState → Nat → PState × List Event)
    (p : PState) (s : VtState) (a : VtAction) (b : Nat)
    (h : ∀ (q : PState) (c : VtAction), performAction f q c b = performAction g q c b) :
    performStateChangeSeq f p s a b = performStateChangeSeq g p s a b := by
  unfold performStateChangeSeq
  have he1 := h p (exitAction p.state)
  have he2 := h (withState (performAction g p (exitAction p.state) b).1 s) a
  have he3 := h
    (performAction g (withState (performAction g p (exitAction p.state) b).1 s) a b).1
    (entryAction
      (performAction g (withState (performAction g p (exitAction p.state) b).1 s) a b).1.state)
  simp only [he1, he2, he3]

theorem advanceTable_fuel (n : Nat) (p : PState) (b : Nat) (hb : b < 256) :
    advanceTable (advanceF (n + 1)) p b = advanceTable (advanceF 1) p b := by
  unfold advanceTable
  by_cases hs : (lookupChange p.state b).1 = .anywhere
  · rw [hs]
    show performAction (advanceF (n + 1)) p (lookupChange p.state b).2 b =
      performAction (advanceF 1) p (lookupChange p.state b).2 b
    exact performAction_fuel n p _ b hb
  · rw [performStateChange_ne _ p _ _ b hs, performStateChange_ne _ p _ _ b hs]
    exact performStateChangeSeq_congr _ _ p _ _ b (fun q c => performAction_fuel n q c b hb)

theorem advanceF_ge2 (n : Nat) (p : PState) (b : Nat) (hb : b < 256) :
    advanceF (n + 2) p b = advanceF 2 p b := by
  by_cases hst : p.state = .utf8
  · have h1 : advanceF (n + 2) p b = processUtf8 (advanceF (n + 1)) p b := by
      simp [advanceF, hst]
    have h2 : advanceF 2 p b = processUtf8 (advanceF 1) p b := by
      simp [advanceF, hst]
    rw [h1, h2]
    exact processUtf8_fuel (n + 1 - 1) p b hb
  · have h1 : advanceF (n + 2) p b = advanceTable (advanceF (n + 1)) p b := by
      simp [advanceF, hst]
    have h2 : advanceF 2 p b = advanceTable (advanceF 1) p b := by
      simp [advanceF, hst]
    rw [h1, h2]
    exact advanceTable_fuel n p b hb

/-! ### Sync shim lemmas -/

theorem advanceSyncCsiLoop_buffer_le (l : List Nat) (off : Nat) (st : SyncState)
    (bo : Option Nat) :
    (advanceSyncCsiLoop off st bo l).1.buffer.length ≤ st.buffer.length := by
  induction l generalizing st bo with
  | nil => exact le_rfl
  | cons i rest ih =>
      show (advanceSyncCsiLoop off st bo (i :: rest)).1.buffer.length ≤ _
      unfold advanceSyncCsiLoop
      dsimp only
      split_ifs with h1 h2
      · exact ih _ _
      · unfold stopSyncInternal
        cases bo with
        | some o => simpa using Nat.sub_le _ _
        | none => simp
      · exact ih _ _

theorem advanceSyncCsi_buffer_le (st : SyncState) (n : Nat) :
    (advanceSyncCsi st n).1.buffer.length ≤ st.buffer.length :=
  advanceSyncCsiLoop_buffer_le _ _ _ _

/-! ### Claim theorems -/

/-- C2: for every byte stream, every `csi_dispatch` call delivers at most 2
intermediates and at most 16 parameters, and its `ignore` argument is true
exactly when an intermediate- or parameter-buffer overflow (`markOverflow`)
occurred since the most recent clear (`markClear`): this is `CsiOK` threaded
from the initial flag `false` over the whole event trace. -/
theorem claim_C2 (B : List Nat) (hB : ∀ b ∈ B, b < 256) :
    CsiOK false (run B).2 :=
  (runFrom_SOK B initParser hB initParser_Inv).1.2.2.1

/-- C2 witness: the stream `ESC [ m` satisfies the C2 trace property. -/
theorem claim_C2_witness : CsiOK false (run [0x1b, 0x5b, 0x6d]).2 :=
  claim_C2 [0x1b, 0x5b, 0x6d] (by decide)

/-- C4: for every byte stream, every OSC dispatch is built from slice index
pairs that are contiguous, non-overlapping sub-ranges of the OSC raw buffer
delivered in order: the first pair begins at offset 0, each subsequent pair
begins where the previous one ended, and every end offset is at most the raw
buffer length at dispatch time (`chainFrom 0 pairs rawLen`). -/
theorem claim_C4 (B : List Nat) (hB : ∀ b ∈ B, b < 256) (pairs : List (Nat × Nat))
    (rawLen : Nat) (hm : Event.markOsc pairs rawLen ∈ (run B).2) :
    chainFrom 0 pairs rawLen = true :=
  (runFrom_SOK B initParser hB initParser_Inv).1.2.2.2 pairs rawLen hm

/-- C4 witness: the OSC dispatch of `ESC ] 2 ; h i BEL` uses the chained
slice pairs `[(0,1), (1,3)]` over a raw buffer of length 3. -/
theorem claim_C4_witness :
    Event.markOsc [(0, 1), (1, 3)] 3 ∈ (run [0x1b, 0x5d, 0x32, 0x3b, 0x68, 0x69, 0x07]).2 ∧
      chainFrom 0 [(0, 1), (1, 3)] 3 = true :=
  ⟨by decide,
   claim_C4 [0x1b, 0x5d, 0x32, 0x3b, 0x68, 0x69, 0x07] (by decide) _ _ (by decide)⟩

/-- C8: after any byte stream, `Parser::end` emits exactly one
`print(U+FFFD)` when the parser is mid-UTF-8-sequence (VT state `Utf8`) and
nothing otherwise, and afterwards the VT state is Ground. -/
theorem claim_C8 (B : List Nat) (hB : ∀ b ∈ B, b < 256) :
    ((endStream (run B).1).2 =
        if (run B).1.state = .utf8 then [Event.print REPLACEMENT] else []) ∧
      (endStream (run B).1).1.state = .ground := by
  have h4 := (runFrom_SOK B initParser hB initParser_Inv).2.2
  by_cases hst : (run B).1.state = .utf8
  · have hne : (run B).1.utf8Parser.state ≠ .ground := h4.mp hst
    constructor
    · simp [endStream, hst, utf8End, hne]
    · simp [endStream, hst, utf8End, hne]
  · constructor
    · simp [endStream, hst]
    · simp [endStream, hst]

/-- C8 witness: after the lone lead byte `0xC2` the parser is mid-sequence,
so `end` prints exactly one U+FFFD and grounds the state. -/
theorem claim_C8_witness :
    ((endStream (run [0xc2]).1).2 =
        if (run [0xc2]).1.state = .utf8 then [Event.print REPLACEMENT] else []) ∧
      (endStream (run [0xc2]).1).1.state = .ground :=
  claim_C8 [0xc2] (by decide)

/-- C9: the sync shim's buffer never exceeds the 2 MiB cap, and whenever a
chunk would overflow the cap it first flushes all buffered bytes through the
underlying parser and reports the synchronized-update mode as unset before
the new bytes are parsed normally; all of this happens by returning events,
never by signalling an error. -/
theorem claim_C9 :
    (∀ (st : SyncState) (bytes : List Nat),
        (advanceSync st bytes).1.buffer.length ≤ SYNC_BUFFER_SIZE) ∧
      (∀ (st : SyncState) (bytes : List Nat) (lb lc : Nat),
        st.buffer.length = lb → bytes.length = lc → SYNC_BUFFER_SIZE < lb + lc →
          (advanceSync st bytes).2 =
            [SyncEvent.flushed st.buffer, SyncEvent.unsetSyncMode,
             SyncEvent.processed bytes]) := by
  constructor
  · intro st bytes
    unfold advanceSync
    split_ifs with h
    · simp [stopSyncInternal]
    · calc (advanceSyncCsi { st with buffer := st.buffer ++ bytes }
            bytes.length).1.buffer.length
          ≤ ({ st with buffer := st.buffer ++ bytes } : SyncState).buffer.length :=
            advanceSyncCsi_buffer_le _ _
        _ ≤ SYNC_BUFFER_SIZE := by
            show (st.buffer ++ bytes).length ≤ SYNC_BUFFER_SIZE
            rw [List.length_append]
            simp only [SYNC_BUFFER_SIZE] at h ⊢
            omega
  · intro st bytes lb lc hlb hlc h
    subst hlb
    subst hlc
    have hcond : SYNC_BUFFER_SIZE - 1 ≤ st.buffer.length + bytes.length := by
      simp only [SYNC_BUFFER_SIZE] at h ⊢
      omega
    unfold advanceSync
    rw [if_pos hcond]
    simp [stopSyncInternal]

/-- C9 witness: a full 2 MiB buffer plus one byte takes the overflow path:
flush all buffered bytes, report the mode unset, then process the new bytes
normally. -/
theorem claim_C9_witness :
    (List.replicate SYNC_BUFFER_SIZE 0).length = SYNC_BUFFER_SIZE ∧
      ([0] : List Nat).length = 1 ∧ SYNC_BUFFER_SIZE < SYNC_BUFFER_SIZE + 1 ∧
      (advanceSync ⟨true, List.replicate SYNC_BUFFER_SIZE 0⟩ [0]).2 =
        [SyncEvent.flushed (List.replicate SYNC_BUFFER_SIZE 0),
         SyncEvent.unsetSyncMode, SyncEvent.processed [0]] :=
  ⟨List.length_replicate _ _, rfl, by decide,
   claim_C9.2 ⟨true, List.replicate SYNC_BUFFER_SIZE 0⟩ [0] SYNC_BUFFER_SIZE 1
     (List.length_replicate _ _) rfl (by decide)⟩

/-- C10: `Parser::advance` terminates with re-feed depth at most one: with
the nesting of the `advance`/`process_utf8` recursion bounded by any fuel of
at least 2 (one top-level call plus one re-feed), the result equals
`advance` itself, for every parser state and input byte. -/
theorem claim_C10 (n : Nat) (p : PState) (b : Nat) (hb : b < 256) :
    advanceF (n + 2) p b = advance p b :=
  advanceF_ge2 n p b hb

/-- C10 witness: fuel 7 and fuel 2 agree on a concrete state and byte. -/
theorem claim_C10_witness :
    (0x41 : Nat) < 256 ∧ advanceF 7 initParser 0x41 = advance initParser 0x41 :=
  ⟨by decide, claim_C10 5 initParser 0x41 (by decide)⟩

/-- C3: CSI/DCS numeric parameter accumulation is exactly
`saturating_add(saturating_mul(acc, 10), digit)`, saturation keeps every
accumulator inside the `i64` range (no wrap, no failure), and the 20-digit
parameter `9223372036854775808` is delivered as `i64::MAX`. -/
theorem claim_C3 :
    (∀ (f : PState → Nat → PState × List Event) (p : PState) (b : Nat),
        p.params.length ≠ MAX_PARAMS → b ≠ 0x3b →
        (performAction f p .param b).1.param =
          satAdd (satMul p.param 10) (Int.ofNat (b - 0x30))) ∧
      (∀ a d : Int, i64Min ≤ satAdd (satMul a 10) d ∧ satAdd (satMul a 10) d ≤ i64Max) ∧
      observables (run [0x1b, 0x5b, 0x39, 0x32, 0x32, 0x33, 0x33, 0x37, 0x32, 0x30,
          0x33, 0x36, 0x38, 0x35, 0x34, 0x37, 0x37, 0x35, 0x38, 0x30, 0x38, 0x6d]).2 =
        [Event.csiDispatch [i64Max] [] false 0x6d] := by
  refine ⟨?_, ?_, by decide⟩
  · intro f p b h1 h2
    simp [performAction, h1, h2]
  · intro a d
    constructor
    · exact le_max_left _ _
    · exact max_le (by decide) (min_le_left _ _)

/-- C3 witness: a digit step on a fresh parser follows the saturating
formula. -/
theorem claim_C3_witness :
    (initParser.params.length ≠ MAX_PARAMS ∧ (0x35 : Nat) ≠ 0x3b) ∧
      (performAction (fun q _ => (q, [])) initParser .param 0x35).1.param =
        satAdd (satMul initParser.param 10) (Int.ofNat (0x35 - 0x30)) :=
  ⟨⟨by decide, by decide⟩, claim_C3.1 _ initParser 0x35 (by decide) (by decide)⟩

/-- C5: every `osc_dispatch` reports `bell_terminated` true exactly when the
terminating byte is BEL (0x07); the bell-terminated input
`1B 5D 32 3B 68 69 07` produces exactly one call
`osc_dispatch(["2", "hi"], bell_terminated = true)`, and the `ESC \`
terminated variant reports `bell_terminated = false`. -/
theorem claim_C5 :
    (∀ (f : PState → Nat → PState × List Event) (p : PState) (b : Nat)
        (params : List (List Nat)) (bell : Bool),
        Event.oscDispatch params bell ∈ (performAction f p .oscEnd b).2 →
        (bell = true ↔ b = 0x07)) ∧
      observables (run [0x1b, 0x5d, 0x32, 0x3b, 0x68, 0x69, 0x07]).2 =
        [Event.oscDispatch [[0x32], [0x68, 0x69]] true] ∧
      observables (run [0x1b, 0x5d, 0x32, 0x3b, 0x68, 0x69, 0x1b, 0x5c]).2 =
        [Event.oscDispatch [[0x32], [0x68, 0x69]] false,
         Event.escDispatch [] false 0x5c] := by
  refine ⟨?_, by decide, by decide⟩
  intro f p b params bell hm
  simp only [performAction, List.mem_cons, List.mem_singleton] at hm
  rcases hm with hm | hm | hm
  · cases hm
  · obtain ⟨-, h2⟩ := Event.oscDispatch.inj hm
    rw [h2]
    exact decide_eq_true_iff
  · cases hm

/-- C5 witness: the OSC dispatch fired by a BEL terminator carries
`bell_terminated = true`. -/
theorem claim_C5_witness :
    Event.oscDispatch [[]] true ∈
        (performAction (fun q _ => (q, ([] : List Event))) initParser .oscEnd 0x07).2 ∧
      (true = true ↔ (0x07 : Nat) = 0x07) :=
  ⟨by decide,
   claim_C5.1 (fun q _ => (q, ([] : List Event))) initParser 0x07 [[]] true (by decide)⟩

/-- C6: on CSI dispatch (and DCS hook) the un-committed accumulator is
pushed as one additional parameter, so the trailing-semicolon input
`1B 5B 34 3B 6D` dispatches `csi_dispatch([4, 0], [], false, 'm')`. -/
theorem claim_C6 :
    (∀ (f : PState → Nat → PState × List Event) (p : PState) (b : Nat),
        p.params.length ≠ MAX_PARAMS →
        (performAction f p .csiDispatch b).2 =
            [Event.csiDispatch (p.params ++ [p.param]) p.intermediates p.ignoring b] ∧
          (performAction f p .hook b).2 =
            [Event.hook (p.params ++ [p.param]) p.intermediates p.ignoring b]) ∧
      observables (run [0x1b, 0x5b, 0x34, 0x3b, 0x6d]).2 =
        [Event.csiDispatch [4, 0] [] false 0x6d] := by
  refine ⟨?_, by decide⟩
  intro f p b hfull
  constructor <;> simp [performAction, hfull]

/-- C6 witness: dispatching on a fresh parser pushes the zero accumulator. -/
theorem claim_C6_witness :
    initParser.params.length ≠ MAX_PARAMS ∧
      (performAction (fun q _ => (q, [])) initParser .csiDispatch 0x6d).2 =
          [Event.csiDispatch (initParser.params ++ [initParser.param])
            initParser.intermediates initParser.ignoring 0x6d] ∧
        (performAction (fun q _ => (q, [])) initParser .hook 0x6d).2 =
          [Event.hook (initParser.params ++ [initParser.param])
            initParser.intermediates initParser.ignoring 0x6d] :=
  ⟨by decide, claim_C6.1 _ initParser 0x6d (by decide)⟩

/-- C1: a byte rejected as a UTF-8 continuation makes the parser print one
U+FFFD for the broken maximal subpart and re-feed the same byte through the
outer machine (one table-driven `advance` at Ground); the input
`C2 41 E1 80 42 F1 80 80 43` prints exactly U+FFFD, 'A', U+FFFD, 'B',
U+FFFD, 'C' and nothing else. -/
theorem claim_C1 :
    (∀ (p : PState) (b : Nat), b < 256 → p.state = .utf8 →
        (utf8Step p.utf8Parser b).2.2 = false →
        advance p b =
          ((advanceF 1 ({ p with
              utf8Parser := (utf8Step p.utf8Parser b).1
              state := .ground }) b).1,
           [Event.print REPLACEMENT] ++
             (advanceF 1 ({ p with
                 utf8Parser := (utf8Step p.utf8Parser b).1
                 state := .ground }) b).2)) ∧
      observables (run [0xc2, 0x41, 0xe1, 0x80, 0x42, 0xf1, 0x80, 0x80, 0x43]).2 =
        [Event.print REPLACEMENT, Event.print 0x41, Event.print REPLACEMENT,
         Event.print 0x42, Event.print REPLACEMENT, Event.print 0x43] := by
  refine ⟨?_, by decide⟩
  intro p b hb hst hc
  obtain ⟨hgr, hrep⟩ := utf8Step_not_consumed hb hc
  show advanceF 2 p b = _
  have h1 : advanceF 2 p b = processUtf8 (advanceF 1) p b := by
    simp [advanceF, hst]
  rw [h1]
  simp only [processUtf8, hc, hrep, List.isEmpty_cons, Bool.false_eq_true, if_false,
    List.map_cons, List.map_nil]

/-- C1 witness: after the lead byte `0xC2`, the non-continuation byte `A`
prints U+FFFD and is re-fed through the Ground machine. -/
theorem claim_C1_witness :
    ((0x41 : Nat) < 256 ∧ (run [0xc2]).1.state = .utf8 ∧
        (utf8Step (run [0xc2]).1.utf8Parser 0x41).2.2 = false) ∧
      advance (run [0xc2]).1 0x41 =
        ((advanceF 1 ({ (run [0xc2]).1 with
            utf8Parser := (utf8Step (run [0xc2]).1.utf8Parser 0x41).1
            state := .ground }) 0x41).1,
         [Event.print REPLACEMENT] ++
           (advanceF 1 ({ (run [0xc2]).1 with
               utf8Parser := (utf8Step (run [0xc2]).1.utf8Parser 0x41).1
               state := .ground }) 0x41).2) :=
  ⟨⟨by decide, by decide, by decide⟩,
   claim_C1.1 (run [0xc2]).1 0x41 (by decide) (by decide) (by decide)⟩

/-- C7: every transition into DcsEntry or SosPmApcString comes from Escape
and carries the CheckDcsSosPmApc action; with DCS/SOS/PM/APC dispatch
disabled (`set_dcs_sos_pm_apc(false)`) the byte is handled as an ESC
dispatch after a clear and the machine returns to Ground, while with it
enabled the machine enters the looked-up state and no `esc_dispatch` is
emitted. -/
theorem claim_C7 :
    ∀ (p : PState) (b : Nat), b < 256 → p.state ≠ .utf8 →
      ((lookupChange p.state b).1 = .dcsEntry ∨
          (lookupChange p.state b).1 = .sosPmApcString) →
      (p.noDcsSosPmApc = true →
          (advance p b).2 = [Event.markClear, Event.escDispatch [] false b] ∧
            (advance p b).1.state = .ground) ∧
        (p.noDcsSosPmApc = false →
          (advance p b).1.state = (lookupChange p.state b).1 ∧
            ∀ ins ig bb, Event.escDispatch ins ig bb ∉ (advance p b).2) := by
  intro p b hb hne hdst
  obtain ⟨hst, hact⟩ := lookup_opaque p.state b hb hdst
  have hne2 : (lookupChange p.state b).1 ≠ .anywhere := by
    rcases hdst with h | h <;> rw [h] <;> decide
  have h1 : advanceF 2 p b = advanceTable (advanceF 1) p b := by
    simp [advanceF, hne]
  have hadv : advance p b =
      performStateChangeSeq (advanceF 1) p (lookupChange p.state b).1
        .checkDcsSosPmApc b := by
    show advanceF 2 p b = _
    rw [h1]
    unfold advanceTable
    rw [hact, performStateChange_ne _ _ _ _ _ hne2]
  constructor
  · intro hn
    rw [hadv]
    rcases hdst with h | h <;> rw [h] <;>
      simp [performStateChangeSeq, performAction, withState, clearParser, hst,
        exitAction, entryAction, hn]
  · intro hn
    rw [hadv]
    rcases hdst with h | h <;> rw [h] <;>
      simp [performStateChangeSeq, performAction, withState, clearParser, hst,
        exitAction, entryAction, hn]

/-- A parser sitting in the Escape state with DCS/SOS/PM/APC dispatch
disabled, as after `set_dcs_sos_pm_apc(false)`. -/
def escParserNoDcs : PState :=
  setDcsSosPmApc { initParser with state := VtState.escape } false

/-- C7 witness: from Escape with dispatch disabled, the byte `P` (0x50,
which would enter DcsEntry) is delivered as an ESC dispatch and the machine
returns to Ground. -/
theorem claim_C7_witness :
    ((0x50 : Nat) < 256 ∧ escParserNoDcs.state ≠ .utf8 ∧
        ((lookupChange escParserNoDcs.state 0x50).1 = .dcsEntry ∨
          (lookupChange escParserNoDcs.state 0x50).1 = .sosPmApcString)) ∧
      ((escParserNoDcs.noDcsSosPmApc = true →
          (advance escParserNoDcs 0x50).2 =
              [Event.markClear, Event.escDispatch [] false 0x50] ∧
            (advance escParserNoDcs 0x50).1.state = .ground) ∧
        (escParserNoDcs.noDcsSosPmApc = false →
          (advance escParserNoDcs 0x50).1.state =
              (lookupChange escParserNoDcs.state 0x50).1 ∧
            ∀ ins ig bb,
              Event.escDispatch ins ig bb ∉ (advance escParserNoDcs 0x50).2)) :=
  ⟨⟨by decide, by decide, by decide⟩,
   claim_C7 escParserNoDcs 0x50 (by decide) (by decide) (by decide)⟩

end Vte
